import Mathlib

/-!
Shallow embedding of the IFF chunk reader (chunk.go) and verification of its
specification.  The Go code is modelled as pure state-passing functions:
an underlying io.ReadSeeker becomes an explicit `Src` record of a read and a
seek function over a state type, and machine integers (uint32, int64) become
Nat / Int with explicit reductions mod 2^32 resp. wrap-around at 2^63 where
the Go arithmetic can overflow.  A concrete `ByteReader` instance models
bytes.Reader, the source used by the package's own tests.
-/

namespace ChunkGo

/-- Go errors, as far as the chunk code distinguishes them: io.EOF versus
errors created from a message string (errors.New and the bytes.Reader errors). -/
inductive GoErr where
  | eof
  | errStr (msg : String)
deriving DecidableEq, Repr

/-- An io.ReadSeeker over a state type: read requests k bytes and returns the
bytes actually delivered (their number is Go's n) plus an optional error; seek
takes an offset and a whence and returns the reported position plus an optional
error.  The field read_le records the Go fact that a read can never deliver
more bytes than the caller's buffer holds. -/
structure Src (σ : Type) where
  read : σ → Nat → List Nat × Option GoErr × σ
  seek : σ → Int → Int → (Int × Option GoErr) × σ
  read_le : ∀ s k, (read s k).1.length ≤ k

/-- The Chunk struct of chunk.go: underlying file, 4-byte id, and the uint32
fields size, base and offset (the chunk-relative cursor). -/
structure Chunk (σ : Type) where
  file : σ
  id : List Nat
  size : Nat
  base : Nat
  offset : Nat
deriving DecidableEq, Repr

/-- Conversion of an int64 value to uint32, as Go's uint32(x). -/
def u32ofInt (x : Int) : Nat := (x % 4294967296).toNat

/-- Go int64 two's-complement wrap-around, applied where the code adds int64
values that might overflow. -/
def wrap64 (x : Int) : Int :=
  (x + 9223372036854775808) % 18446744073709551616 - 9223372036854775808

/-- Go uint32 subtraction a - b (wrapping), for the expression
this.size - this.offset in Read. -/
def sub32 (a b : Nat) : Nat :=
  (a % 4294967296 + 4294967296 - b % 4294967296) % 4294967296

/-- The size expression of New, line 29 of chunk.go:
(uint32(b0) << 24) | (uint32(b1) << 16) | (uint32(b2) << 8) | uint32(b3),
on byte values (a byte is its value mod 256). -/
def be32 (b0 b1 b2 b3 : Nat) : Nat :=
  ((b0 % 256) <<< 24) ||| ((b1 % 256) <<< 16) ||| ((b2 % 256) <<< 8) ||| (b3 % 256)

/-- New (chunk.go lines 20-32): read 4 id bytes, read 4 size bytes, decode the
size big-endian, record the current source position as base, cursor 0.  Each
header read is rejected unless it returned exactly 4 bytes with no error; on
rejection the function returns no chunk together with the read's error value
(which may itself be absent).  The seek error when recording base is ignored,
exactly as the Go code discards it. -/
def chunkNew {σ : Type} (S : Src σ) (f : σ) :
    Option (Chunk σ) × Option GoErr × σ :=
  let r1 := S.read f 4
  if r1.1.length ≠ 4 ∨ r1.2.1 ≠ none then (none, r1.2.1, r1.2.2)
  else
    let r2 := S.read r1.2.2 4
    if r2.1.length ≠ 4 ∨ r2.2.1 ≠ none then (none, r2.2.1, r2.2.2)
    else
      let sb := r2.1
      let size := be32 (sb.getD 0 0) (sb.getD 1 0) (sb.getD 2 0) (sb.getD 3 0)
      let sk := S.seek r2.2.2 0 1
      (some ⟨sk.2, r1.1, size, u32ofInt sk.1.1, 0⟩, none, sk.2)

/-- Seek (chunk.go lines 45-61): whence 1 adds the cursor, whence 2 adds the
size, anything else leaves the offset as is; out-of-range targets are rejected
with the cursor unchanged; otherwise the underlying source is sought to
base + target at whence 0 and the cursor updated on success.  int64 additions
carry Go's wrap-around. -/
def chunkSeek {σ : Type} (S : Src σ) (c : Chunk σ) (offset : Int)
    (whence : Int) : (Int × Option GoErr) × Chunk σ :=
  let off : Int :=
    if whence = 1 then wrap64 (offset + (c.offset : Int))
    else if whence = 2 then wrap64 (offset + (c.size : Int))
    else offset
  if off < 0 ∨ (c.size : Int) < off then
    (((c.offset : Int), some (GoErr.errStr "Invalid seek offset")), c)
  else
    let sk := S.seek c.file (wrap64 ((c.base : Int) + off)) 0
    if sk.1.2 = none then
      ((off, none), ⟨sk.2, c.id, c.size, c.base, u32ofInt off⟩)
    else
      ((wrap64 (sk.1.1 - (c.base : Int)), sk.1.2), ⟨sk.2, c.id, c.size, c.base, c.offset⟩)

/-- Skip (chunk.go lines 66-74): compute base + size in uint32 arithmetic, add
one if that position is odd, set the cursor to size, and seek the underlying
source there, discarding the seek's result entirely. -/
def chunkSkip {σ : Type} (S : Src σ) (c : Chunk σ) : Chunk σ :=
  let pos := (c.base + c.size) % 4294967296
  let pos := if pos % 2 = 1 then (pos + 1) % 4294967296 else pos
  let sk := S.seek c.file (pos : Int) 0
  ⟨sk.2, c.id, c.size, c.base, c.size⟩

/-- Read (chunk.go lines 77-97): EOF when the cursor equals size; otherwise
truncate the request to size - offset in uint32 arithmetic, read, advance the
cursor by the bytes delivered, and, when the new cursor equals size and size is
odd, seek the source one byte forward and on success advance the cursor once
more.  Returns ((n, err), chunk after, bytes delivered). -/
def chunkRead {σ : Type} (S : Src σ) (c : Chunk σ) (buflen : Nat) :
    (Nat × Option GoErr) × Chunk σ × List Nat :=
  if c.offset = c.size then ((0, some GoErr.eof), c, [])
  else
    let req0 := buflen % 4294967296
    let avail := sub32 c.size c.offset
    let req := if avail < req0 then avail else req0
    let r := S.read c.file req
    let n := r.1.length
    let off1 := (c.offset + n) % 4294967296
    if off1 = c.size ∧ c.size % 2 = 1 then
      let sk := S.seek r.2.2 1 1
      if sk.1.2 = none then
        ((n, r.2.1), ⟨sk.2, c.id, c.size, c.base, (off1 + 1) % 4294967296⟩, r.1)
      else
        ((n, r.2.1), ⟨sk.2, c.id, c.size, c.base, off1⟩, r.1)
    else ((n, r.2.1), ⟨r.2.2, c.id, c.size, c.base, off1⟩, r.1)

/-- Name accessor (chunk.go lines 35-37). -/
def chunkName {σ : Type} (c : Chunk σ) : List Nat := c.id

/-- Size accessor (chunk.go lines 40-42). -/
def chunkSize {σ : Type} (c : Chunk σ) : Nat := c.size

/-- IsTTY (chunk.go lines 100-102). -/
def chunkIsTTY {σ : Type} (_c : Chunk σ) : Bool := false

/-- bytes.Reader: a byte slice and a position.  The position may sit beyond
the data (seeking past the end is legal); it is never negative. -/
structure ByteReader where
  data : List Nat
  pos : Nat
deriving DecidableEq, Repr

/-- bytes.Reader.Read: EOF when the position has passed the data, otherwise
deliver min(k, remaining) bytes and advance. -/
def ByteReader.readN (r : ByteReader) (k : Nat) :
    List Nat × Option GoErr × ByteReader :=
  if r.data.length ≤ r.pos then ([], some GoErr.eof, r)
  else
    let n := min k (r.data.length - r.pos)
    ((r.data.drop r.pos).take n, none, ⟨r.data, r.pos + n⟩)

/-- bytes.Reader.Seek: resolve the whence, reject negative targets, otherwise
move and report the absolute position. -/
def ByteReader.seekTo (r : ByteReader) (offset : Int) (whence : Int) :
    (Int × Option GoErr) × ByteReader :=
  if whence = 0 ∨ whence = 1 ∨ whence = 2 then
    let abs : Int :=
      if whence = 1 then (r.pos : Int) + offset
      else if whence = 2 then (r.data.length : Int) + offset
      else offset
    if abs < 0 then
      ((0, some (GoErr.errStr "bytes.Reader.Seek: negative position")), r)
    else ((abs, none), ⟨r.data, abs.toNat⟩)
  else ((0, some (GoErr.errStr "bytes.Reader.Seek: invalid whence")), r)

/-- bytes.Reader packaged as a Src. -/
def byteSrc : Src ByteReader where
  read := ByteReader.readN
  seek := ByteReader.seekTo
  read_le := by
    intro s k
    unfold ByteReader.readN
    split
    · simp
    · simp [List.length_take]

/-! Arithmetic helper lemmas. -/

theorem wrap64_eq_self (x : Int) (h1 : -9223372036854775808 ≤ x)
    (h2 : x < 9223372036854775808) : wrap64 x = x := by
  unfold wrap64
  omega

theorem u32ofInt_eq (x : Int) (h1 : 0 ≤ x) (h2 : x < 4294967296) :
    u32ofInt x = x.toNat := by
  unfold u32ofInt
  omega

theorem sub32_eq (a b : Nat) (hb : b ≤ a) (ha : a < 4294967296) :
    sub32 a b = a - b := by
  unfold sub32
  omega

theorem lor_mul_pow_add : ∀ (k x y : Nat), y < 2 ^ k →
    x * 2 ^ k ||| y = x * 2 ^ k + y := by
  intro k
  induction k with
  | zero =>
    intro x y hy
    have h0 : y = 0 := by omega
    subst h0
    simp
  | succ k ih =>
    intro x y hy
    have hp : 2 ^ (k + 1) = 2 ^ k * 2 := Nat.pow_succ 2 k
    have hy2 : y / 2 < 2 ^ k := by omega
    have h1 : x * 2 ^ (k + 1) = Nat.bit false (x * 2 ^ k) := by
      simp only [Nat.bit_val, Bool.toNat_false, Nat.add_zero, hp]
      ring
    have h2 : Nat.bit (decide (y % 2 = 1)) (y / 2) = y := by
      simpa only [Nat.shiftRight_one] using
        Nat.bit_decide_mod_two_eq_one_shiftRight_one y
    have hb : (decide (y % 2 = 1)).toNat = y % 2 := by
      rcases Nat.mod_two_eq_zero_or_one y with h | h <;> simp [h]
    conv_lhs => rw [h1, ← h2]
    rw [Nat.lor_bit, ih x (y / 2) hy2]
    simp only [Bool.false_or, Nat.bit_val, hb]
    have h3 : x * 2 ^ (k + 1) = 2 * (x * 2 ^ k) := by rw [hp]; ring
    rw [h3]
    omega

theorem be32_eq (b0 b1 b2 b3 : Nat) (h0 : b0 < 256) (h1 : b1 < 256)
    (h2 : b2 < 256) (h3 : b3 < 256) :
    be32 b0 b1 b2 b3 = b0 * 16777216 + b1 * 65536 + b2 * 256 + b3 := by
  unfold be32
  rw [Nat.mod_eq_of_lt h0, Nat.mod_eq_of_lt h1, Nat.mod_eq_of_lt h2,
    Nat.mod_eq_of_lt h3]
  rw [Nat.shiftLeft_eq, Nat.shiftLeft_eq, Nat.shiftLeft_eq]
  rw [Nat.lor_assoc, Nat.lor_assoc]
  rw [lor_mul_pow_add 8 b2 b3 (by omega)]
  rw [lor_mul_pow_add 16 b1 (b2 * 2 ^ 8 + b3) (by omega)]
  rw [lor_mul_pow_add 24 b0 (b1 * 2 ^ 16 + (b2 * 2 ^ 8 + b3)) (by omega)]
  omega

/-! Concrete inputs used as counterexamples and witnesses.  Each chunk is
obtained by running the constructor on a concrete bytes.Reader, so each is a
reachable state. -/

/-- A source holding one chunk of declared size 1 (odd), payload [255],
followed by further bytes 7, 8, 9, 10. -/
def exData1 : List Nat := [0, 0, 0, 0, 0, 0, 0, 1, 255, 7, 8, 9, 10]

/-- The chunk constructed from exData1. -/
def exChunkOdd : Chunk ByteReader :=
  (chunkNew byteSrc ⟨exData1, 0⟩).1.getD ⟨⟨[], 0⟩, [], 0, 0, 0⟩

/-- exChunkOdd after one Read that drains its single payload byte. -/
def exChunkOddDrained : Chunk ByteReader := (chunkRead byteSrc exChunkOdd 1).2.1

/-- A source whose chunk header starts at offset 1, so the chunk's base (9) is
odd while its declared size (2) is even. -/
def exData4 : List Nat := [9, 70, 79, 79, 32, 0, 0, 0, 2, 10, 11]

/-- The chunk constructed from exData4 positioned at offset 1. -/
def exChunkOddBase : Chunk ByteReader :=
  (chunkNew byteSrc ⟨exData4, 1⟩).1.getD ⟨⟨[], 0⟩, [], 0, 0, 0⟩

/-- A source holding one chunk of declared size 3 (odd), payload [1, 2, 3],
pad byte 99, followed by bytes 5, 6, 7, 8. -/
def exData5 : List Nat := [0, 0, 0, 0, 0, 0, 0, 3, 1, 2, 3, 99, 5, 6, 7, 8]

/-- The chunk constructed from exData5. -/
def exChunk3 : Chunk ByteReader :=
  (chunkNew byteSrc ⟨exData5, 0⟩).1.getD ⟨⟨[], 0⟩, [], 0, 0, 0⟩

/-- exChunk3 after one Read that drains its three payload bytes. -/
def exChunk3Drained : Chunk ByteReader := (chunkRead byteSrc exChunk3 3).2.1

/-- A source whose seek always fails and leaves its state untouched, used to
show Skip ignores seek failures. -/
def failSeekSrc : Src Nat where
  read := fun s _ => ([], some GoErr.eof, s)
  seek := fun s _ _ => ((0, some (GoErr.errStr "seek failed")), s)
  read_le := by intro s k; simp

/-- Claim C1, counterexample: on the reachable chunk exChunkOdd (declared size
1, cursor 0), a single Read that drains the payload leaves the cursor at 2,
strictly above the declared size: the pad-byte handling increments the cursor
past declaredSize, so the claimed invariant cursor ≤ declaredSize fails. -/
theorem c1_cursor_exceeds_size_counterexample :
    exChunkOdd.size = 1 ∧ exChunkOdd.offset = 0 ∧
    (chunkRead byteSrc exChunkOdd 1).2.1.offset = 2 ∧
    ¬ (chunkRead byteSrc exChunkOdd 1).2.1.offset ≤ exChunkOdd.size := by
  decide

/-- Claim C2, code bug: after reading exactly declaredSize = 1 payload bytes
from the odd-sized chunk exChunkOdd, the next Read does not return (0, io.EOF)
as the claim requires; because the pad step pushed the cursor to size + 1, the
uint32 subtraction size - cursor underflows and the call reads 3 bytes lying
beyond the chunk, returning (3, no error). -/
theorem c2_read_after_drain_not_eof :
    (chunkRead byteSrc exChunkOdd 1).1 = (1, none) ∧
    (chunkRead byteSrc exChunkOdd 1).2.2 = [255] ∧
    (chunkRead byteSrc exChunkOddDrained 3).1 = (3, none) ∧
    (chunkRead byteSrc exChunkOddDrained 3).1 ≠ (0, some GoErr.eof) := by
  decide

/-- Claim C3, code bug: on a source holding only 2 bytes, the 4-byte tag read
returns 2 bytes with no error (exactly what bytes.Reader does), and New then
returns neither a chunk nor an error — the partial header is accepted silently
instead of failing as the claim requires. -/
theorem c3_partial_header_no_error :
    (chunkNew byteSrc ⟨[1, 2], 0⟩).1 = none ∧
    (chunkNew byteSrc ⟨[1, 2], 0⟩).2.1 = none := by
  decide

/-- Claim C4, counterexample: exChunkOddBase has base 9 (odd) and declared
size 2 (even).  Skip seeks the underlying source to 12, because the code
rounds up whenever base + size is odd, whereas the claim says no rounding
happens for an even declaredSize and the source ends at base + size = 11. -/
theorem c4_skip_rounding_counterexample :
    exChunkOddBase.base = 9 ∧ exChunkOddBase.size = 2 ∧
    (chunkSkip byteSrc exChunkOddBase).file.pos = 12 ∧
    (chunkSkip byteSrc exChunkOddBase).file.pos ≠
      exChunkOddBase.base + exChunkOddBase.size := by
  decide

/-- Claim C5, code bug: exChunk3 declares 3 payload bytes.  A Read of 3 bytes
drains the payload [1, 2, 3]; the claim's guarantee says no further payload
bytes can ever be delivered, yet the following Read delivers 4 more bytes
[5, 6, 7, 8] from beyond the chunk, because the pad step left the cursor at
size + 1 and the uint32 availability computation underflowed. -/
theorem c5_reads_past_declared_size :
    exChunk3.size = 3 ∧
    (chunkRead byteSrc exChunk3 3).1 = (3, none) ∧
    (chunkRead byteSrc exChunk3 3).2.2 = [1, 2, 3] ∧
    (chunkRead byteSrc exChunk3Drained 4).1 = (4, none) ∧
    (chunkRead byteSrc exChunk3Drained 4).2.2 = [5, 6, 7, 8] := by
  decide

/-- Claim C9: for every whence value other than 1 (from-current) and 2
(from-end) — including invalid values such as 3 or -1 — Seek behaves exactly
as a from-start seek with the same offset; no whence validation happens. -/
theorem c9_whence_default_from_start (σ : Type) (S : Src σ) (c : Chunk σ)
    (off : Int) (w : Int) (h1 : w ≠ 1) (h2 : w ≠ 2) :
    chunkSeek S c off w = chunkSeek S c off 0 := by
  unfold chunkSeek
  simp [h1, h2]

/-- Claim C9, witness: whence 3 on the concrete chunk exChunk3 acts as
whence 0. -/
theorem c9_whence_default_from_start_witness :
    chunkSeek byteSrc exChunk3 1 3 = chunkSeek byteSrc exChunk3 1 0 :=
  c9_whence_default_from_start ByteReader byteSrc exChunk3 1 3
    (by decide) (by decide)

/-- Claim C10: Skip returns nothing and ignores the underlying seek's outcome:
for every source and chunk the cursor afterwards equals declaredSize and any
subsequent Read returns (0, io.EOF); moreover over failSeekSrc, whose seek
always fails without moving, Skip leaves the source state untouched while
still marking the chunk exhausted. -/
theorem c10_skip_ignores_seek_failure :
    (∀ (σ : Type) (S : Src σ) (c : Chunk σ) (bl : Nat),
      (chunkSkip S c).offset = c.size ∧
      (chunkRead S (chunkSkip S c) bl).1 = (0, some GoErr.eof)) ∧
    (∀ (c : Chunk Nat), (chunkSkip failSeekSrc c).file = c.file ∧
      (chunkSkip failSeekSrc c).offset = c.size) := by
  constructor
  · intro σ S c bl
    constructor
    · rfl
    · simp [chunkRead, chunkSkip]
  · intro c
    constructor
    · rfl
    · rfl

theorem byteSrc_read : byteSrc.read = ByteReader.readN := rfl

theorem byteSrc_seek : byteSrc.seek = ByteReader.seekTo := rfl

theorem getD_take_drop (l : List Nat) (m n i : Nat) (h : i < n) :
    ((l.drop m).take n).getD i 0 = l.getD (m + i) 0 := by
  rw [List.getD_eq_getElem?_getD, List.getElem?_take, if_pos h,
    List.getElem?_drop, ← List.getD_eq_getElem?_getD]

/-- bytes.Reader.Seek to a nonnegative absolute position always succeeds and
moves there. -/
theorem seekTo_abs (r : ByteReader) (p : Nat) :
    r.seekTo (p : Int) 0 = (((p : Int), none), ⟨r.data, p⟩) := by
  unfold ByteReader.seekTo
  norm_num

/-- bytes.Reader.Read delivers exactly the requested k bytes when they are
available. -/
theorem readN_full (r : ByteReader) (k : Nat) (hk : 0 < k)
    (h : r.pos + k ≤ r.data.length) :
    r.readN k = ((r.data.drop r.pos).take k, none, ⟨r.data, r.pos + k⟩) := by
  unfold ByteReader.readN
  rw [if_neg (by omega)]
  have hmin : min k (r.data.length - r.pos) = k := by omega
  simp only [hmin]

/-- Claim C1 (amended): for every chunk whose cursor is within bounds, Seek
and Skip keep the cursor within [0, declaredSize]; a Read either keeps the
cursor within [0, declaredSize], or — when it drains an odd-sized chunk and
the pad-byte seek succeeds — the pad step increments the cursor to
(declaredSize + 1) mod 2^32, one past the declared size.  The pad-byte
handling is thus not invisible to the chunk's coordinate space. -/
theorem c1_cursor_bounds_amended (σ : Type) (S : Src σ) (c : Chunk σ)
    (hsz : c.size < 4294967296) (hof : c.offset ≤ c.size) :
    (∀ off w, (chunkSeek S c off w).2.offset ≤ c.size) ∧
    (chunkSkip S c).offset = c.size ∧
    (∀ bl, (chunkRead S c bl).2.1.offset ≤ c.size ∨
      (c.size % 2 = 1 ∧
        (chunkRead S c bl).2.1.offset = (c.size + 1) % 4294967296)) := by
  refine ⟨?_, rfl, ?_⟩
  · intro off w
    simp only [chunkSeek]
    generalize (if w = 1 then wrap64 (off + (c.offset : Int))
      else if w = 2 then wrap64 (off + (c.size : Int)) else off) = t
    split
    · exact hof
    · rename_i h
      split
      · simp only [u32ofInt]
        omega
      · exact hof
  · intro bl
    by_cases h0 : c.offset = c.size
    · left
      simp [chunkRead, h0, hof]
    · have hlt : c.offset < c.size := lt_of_le_of_ne hof h0
      have havail : sub32 c.size c.offset = c.size - c.offset :=
        sub32_eq _ _ hof hsz
      simp only [chunkRead, if_neg h0, havail]
      set req := if c.size - c.offset < bl % 4294967296 then c.size - c.offset
        else bl % 4294967296 with hreq
      have hreqle : req ≤ c.size - c.offset := by rw [hreq]; split <;> omega
      have hn : (S.read c.file req).1.length ≤ req := S.read_le c.file req
      have hoffn : (c.offset + (S.read c.file req).1.length) % 4294967296 =
          c.offset + (S.read c.file req).1.length :=
        Nat.mod_eq_of_lt (by omega)
      rw [hoffn]
      split
      · rename_i hcond
        split
        · right
          exact ⟨hcond.2, by rw [hcond.1]⟩
        · left
          simp only
          omega
      · left
        simp only
        omega

/-- Claim C1 (amended), witness: the amended bound instantiated on the
concrete in-bounds chunk exChunk3 of size 3. -/
theorem c1_cursor_bounds_amended_witness :
    (∀ off w, (chunkSeek byteSrc exChunk3 off w).2.offset ≤ exChunk3.size) ∧
    (chunkSkip byteSrc exChunk3).offset = exChunk3.size ∧
    (∀ bl, (chunkRead byteSrc exChunk3 bl).2.1.offset ≤ exChunk3.size ∨
      (exChunk3.size % 2 = 1 ∧
        (chunkRead byteSrc exChunk3 bl).2.1.offset =
          (exChunk3.size + 1) % 4294967296)) :=
  c1_cursor_bounds_amended ByteReader byteSrc exChunk3 (by decide) (by decide)

/-- Claim C4 (amended): Skip sets the cursor to declaredSize and positions the
underlying source at base + declaredSize rounded up to the next even offset if
and only if base + declaredSize is odd (for the even bases produced by
well-formed IFF files this coincides with declaredSize being odd, but it is
the parity of base + declaredSize that the code tests). -/
theorem c4_skip_amended (c : Chunk ByteReader)
    (h : c.base + c.size + 1 < 4294967296) :
    (chunkSkip byteSrc c).offset = c.size ∧
    (chunkSkip byteSrc c).file.data = c.file.data ∧
    (chunkSkip byteSrc c).file.pos =
      (if (c.base + c.size) % 2 = 1 then c.base + c.size + 1
       else c.base + c.size) := by
  have hm : (c.base + c.size) % 4294967296 = c.base + c.size :=
    Nat.mod_eq_of_lt (by omega)
  have hm1 : (c.base + c.size + 1) % 4294967296 = c.base + c.size + 1 :=
    Nat.mod_eq_of_lt h
  refine ⟨rfl, ?_, ?_⟩ <;>
  · simp only [chunkSkip, byteSrc_seek, hm, hm1]
    rw [seekTo_abs]

/-- Claim C4 (amended), witness: the amended contract instantiated on the
concrete chunk exChunkOdd (base 8, size 1, base + size odd). -/
theorem c4_skip_amended_witness :
    (chunkSkip byteSrc exChunkOdd).offset = exChunkOdd.size ∧
    (chunkSkip byteSrc exChunkOdd).file.data = exChunkOdd.file.data ∧
    (chunkSkip byteSrc exChunkOdd).file.pos =
      (if (exChunkOdd.base + exChunkOdd.size) % 2 = 1 then
        exChunkOdd.base + exChunkOdd.size + 1
       else exChunkOdd.base + exChunkOdd.size) :=
  c4_skip_amended exChunkOdd (by decide)

/-- bytes.Reader.Seek with offset 0 and whence 1 reports the current position
without moving. -/
theorem seekTo_cur (r : ByteReader) :
    r.seekTo 0 1 = (((r.pos : Int), none), ⟨r.data, r.pos⟩) := by
  unfold ByteReader.seekTo
  norm_num

/-- Claim C6: constructing a chunk from a bytes.Reader with 8 header bytes
available yields the first 4 bytes verbatim as the tag, the big-endian value
of the next 4 bytes as the declared size, base equal to the position right
after the header, cursor 0, no error, and the source advanced by exactly 8
bytes. -/
theorem c6_new_parses_header (data : List Nat) (p : Nat)
    (h8 : p + 8 ≤ data.length) (hU : p + 8 < 4294967296)
    (h4 : data.getD (p + 4) 0 < 256) (h5 : data.getD (p + 5) 0 < 256)
    (h6 : data.getD (p + 6) 0 < 256) (h7 : data.getD (p + 7) 0 < 256) :
    chunkNew byteSrc ⟨data, p⟩ =
      (some ⟨⟨data, p + 8⟩, (data.drop p).take 4,
        data.getD (p + 4) 0 * 16777216 + data.getD (p + 5) 0 * 65536 +
          data.getD (p + 6) 0 * 256 + data.getD (p + 7) 0,
        p + 8, 0⟩, none, ⟨data, p + 8⟩) := by
  have hr1 : ByteReader.readN ⟨data, p⟩ 4 =
      ((data.drop p).take 4, none, ⟨data, p + 4⟩) :=
    readN_full ⟨data, p⟩ 4 (by norm_num) (by show p + 4 ≤ data.length; omega)
  have hr2 : ByteReader.readN ⟨data, p + 4⟩ 4 =
      ((data.drop (p + 4)).take 4, none, ⟨data, p + 8⟩) := by
    have h := readN_full ⟨data, p + 4⟩ 4 (by norm_num)
      (by show p + 4 + 4 ≤ data.length; omega)
    rw [show p + 4 + 4 = p + 8 from by omega] at h
    exact h
  have hlen1 : ((data.drop p).take 4).length = 4 := by
    simp only [List.length_take, List.length_drop]
    omega
  have hlen2 : ((data.drop (p + 4)).take 4).length = 4 := by
    simp only [List.length_take, List.length_drop]
    omega
  have hc1 : ¬(((data.drop p).take 4).length ≠ 4 ∨
      (none : Option GoErr) ≠ none) := by simp [hlen1]
  have hc2 : ¬(((data.drop (p + 4)).take 4).length ≠ 4 ∨
      (none : Option GoErr) ≠ none) := by simp [hlen2]
  have hg0 : ((data.drop (p + 4)).take 4).getD 0 0 = data.getD (p + 4) 0 := by
    rw [getD_take_drop data (p + 4) 4 0 (by norm_num),
      show p + 4 + 0 = p + 4 from by omega]
  have hg1 : ((data.drop (p + 4)).take 4).getD 1 0 = data.getD (p + 5) 0 := by
    rw [getD_take_drop data (p + 4) 4 1 (by norm_num),
      show p + 4 + 1 = p + 5 from by omega]
  have hg2 : ((data.drop (p + 4)).take 4).getD 2 0 = data.getD (p + 6) 0 := by
    rw [getD_take_drop data (p + 4) 4 2 (by norm_num),
      show p + 4 + 2 = p + 6 from by omega]
  have hg3 : ((data.drop (p + 4)).take 4).getD 3 0 = data.getD (p + 7) 0 := by
    rw [getD_take_drop data (p + 4) 4 3 (by norm_num),
      show p + 4 + 3 = p + 7 from by omega]
  have hbase : u32ofInt ((p + 8 : Nat) : Int) = p + 8 := by
    unfold u32ofInt
    omega
  have hbe : be32 (((data.drop (p + 4)).take 4).getD 0 0)
      (((data.drop (p + 4)).take 4).getD 1 0)
      (((data.drop (p + 4)).take 4).getD 2 0)
      (((data.drop (p + 4)).take 4).getD 3 0) =
      data.getD (p + 4) 0 * 16777216 + data.getD (p + 5) 0 * 65536 +
        data.getD (p + 6) 0 * 256 + data.getD (p + 7) 0 := by
    rw [hg0, hg1, hg2, hg3]
    exact be32_eq _ _ _ _ h4 h5 h6 h7
  simp only [chunkNew, byteSrc_read, byteSrc_seek, hr1, hr2, if_neg hc1,
    if_neg hc2, seekTo_cur, hbase, hbe]

/-- Claim C6, witness: parsing the concrete header of exData1 at position 0
yields tag [0,0,0,0], size 1, base 8, cursor 0 and source position 8. -/
theorem c6_new_parses_header_witness :
    chunkNew byteSrc ⟨exData1, 0⟩ =
      (some ⟨⟨exData1, 0 + 8⟩, (exData1.drop 0).take 4,
        exData1.getD (0 + 4) 0 * 16777216 + exData1.getD (0 + 5) 0 * 65536 +
          exData1.getD (0 + 6) 0 * 256 + exData1.getD (0 + 7) 0,
        0 + 8, 0⟩, none, ⟨exData1, 0 + 8⟩) :=
  c6_new_parses_header exData1 0 (by decide) (by decide) (by decide)
    (by decide) (by decide) (by decide)

/-- Claim C7: for whence 0, 1 or 2 the target is offset, cursor + offset or
declaredSize + offset respectively; whenever the target lies in
[0, declaredSize], Seek over a bytes.Reader repositions the source to
base + target, sets the cursor to the target, and returns the target with no
error.  In particular a seek to exactly declaredSize lands the source at
base + declaredSize even for an odd declaredSize: no pad byte is consumed on
the seek path. -/
theorem c7_seek_in_bounds (c : Chunk ByteReader) (off w t : Int)
    (hw : w = 0 ∨ w = 1 ∨ w = 2)
    (ht : t = (if w = 1 then off + (c.offset : Int)
      else if w = 2 then off + (c.size : Int) else off))
    (hsz : c.size < 4294967296) (hb : c.base < 4294967296)
    (h0 : 0 ≤ t) (h1 : t ≤ (c.size : Int)) :
    chunkSeek byteSrc c off w =
      ((t, none), ⟨⟨c.file.data, c.base + t.toNat⟩, c.id, c.size, c.base,
        t.toNat⟩) := by
  have hcomp : (if w = 1 then wrap64 (off + (c.offset : Int))
      else if w = 2 then wrap64 (off + (c.size : Int)) else off) = t := by
    rcases hw with hw | hw | hw <;> subst hw
    · norm_num at ht ⊢
      omega
    · norm_num at ht ⊢
      rw [ht]
      exact wrap64_eq_self _ (by omega) (by omega)
    · norm_num at ht ⊢
      rw [ht]
      exact wrap64_eq_self _ (by omega) (by omega)
  have harg : wrap64 ((c.base : Int) + t) = (c.base : Int) + t :=
    wrap64_eq_self _ (by omega) (by omega)
  have hcast : (c.base : Int) + t = ((c.base + t.toNat : Nat) : Int) := by
    omega
  have hu : u32ofInt t = t.toNat := by
    unfold u32ofInt
    omega
  simp only [chunkSeek, hcomp]
  rw [if_neg (by omega : ¬(t < 0 ∨ (c.size : Int) < t))]
  rw [harg, hcast, byteSrc_seek, seekTo_abs, hu]
  simp

/-- Claim C7, witness: a from-end seek by -1 on the size-3 chunk exChunk3
lands at target 2, repositioning the source to base + 2 and returning 2. -/
theorem c7_seek_in_bounds_witness :
    chunkSeek byteSrc exChunk3 (-1) 2 =
      (((2 : Int), none), ⟨⟨exChunk3.file.data, exChunk3.base + (2 : Int).toNat⟩,
        exChunk3.id, exChunk3.size, exChunk3.base, (2 : Int).toNat⟩) :=
  c7_seek_in_bounds exChunk3 (-1) 2 2 (by norm_num) (by decide) (by decide)
    (by decide) (by decide) (by decide)

/-- Claim C8: whenever the computed target (offset, cursor + offset, or
declaredSize + offset according to whence) is negative or exceeds
declaredSize, Seek returns the unchanged current chunk-relative position
together with the invalid-offset error, leaves the whole chunk — cursor and
underlying source included — unchanged, and never touches the source.  This
holds for any int64 offset, including values whose int64 addition wraps. -/
theorem c8_seek_out_of_range (σ : Type) (S : Src σ) (c : Chunk σ)
    (off w t : Int)
    (ht : t = (if w = 1 then off + (c.offset : Int)
      else if w = 2 then off + (c.size : Int) else off))
    (hlo : -9223372036854775808 ≤ off) (hhi : off < 9223372036854775808)
    (hsz : c.size < 4294967296) (hof : c.offset < 4294967296)
    (hbad : t < 0 ∨ (c.size : Int) < t) :
    chunkSeek S c off w =
      (((c.offset : Int), some (GoErr.errStr "Invalid seek offset")), c) := by
  have key : (if w = 1 then wrap64 (off + (c.offset : Int))
      else if w = 2 then wrap64 (off + (c.size : Int)) else off) < 0 ∨
      (c.size : Int) < (if w = 1 then wrap64 (off + (c.offset : Int))
      else if w = 2 then wrap64 (off + (c.size : Int)) else off) := by
    by_cases hw1 : w = 1
    · subst hw1
      norm_num at ht ⊢
      subst ht
      unfold wrap64
      omega
    · by_cases hw2 : w = 2
      · subst hw2
        norm_num at ht ⊢
        subst ht
        unfold wrap64
        omega
      · simp only [if_neg hw1, if_neg hw2] at ht ⊢
        subst ht
        exact hbad
  simp only [chunkSeek]
  rw [if_pos key]

/-- Claim C8, witness: seeking exChunk3 (size 3) to absolute offset 4 fails
with the invalid-offset error, reports the unchanged cursor 0, and leaves the
chunk untouched. -/
theorem c8_seek_out_of_range_witness :
    chunkSeek byteSrc exChunk3 4 0 =
      (((exChunk3.offset : Int), some (GoErr.errStr "Invalid seek offset")),
        exChunk3) :=
  c8_seek_out_of_range ByteReader byteSrc exChunk3 4 0 4 (by norm_num)
    (by norm_num) (by norm_num) (by decide) (by decide) (by decide)

end ChunkGo
